import Mathlib

/-!
Verification of the nexus-topic trending/article pipeline.

This file shallowly embeds the pure computational kernels of the repository:
  * `backend/scripts/fetch_trending.py` — score normalization, high-CPC
    boosting and the word-overlap deduplication of `get_all_trending_topics`;
  * `backend/scripts/optimize_adsense.py` — `find_insertion_points` and
    `optimize_ad_placement` over a flat block model of the article HTML;
  * `backend/scripts/save_article.py` — `create_slug` and
    `save_article_to_database`;
  * `backend/scripts/generate_content.py` — `_is_similar`,
    `_is_semantic_duplicate` and the duplicate-avoidance loop of
    `generate_multiple_articles` (LLM calls abstracted as oracles);
  * `backend/scripts/database.py` — `check_slug_exists` / `create_article`
    as operations on an explicit table state.

Modelling conventions: Python strings are Lean `String`/`List Char`;
`str.lower()`/`str.upper()` are modelled on the ASCII range; Python's
`re` whitespace class is the Unicode whitespace list; numeric scores are
`Int` inputs and rational arithmetic (`ℚ`) replaces float arithmetic, with
Python's banker's rounding `round()` modelled exactly by `pyRound`
(the float computations in the source stay within ranges where they agree
with exact rational arithmetic at every input used below).
-/

/-- Code point of a character, as a `Nat` (used so that all character-class
predicates reduce to arithmetic). -/
def charCode (c : Char) : Nat := c.toNat

/-- ASCII lowercase letter `a`-`z`. -/
def isLowerAZ (c : Char) : Bool := 97 ≤ charCode c && charCode c ≤ 122

/-- ASCII digit `0`-`9`. -/
def isDigitChar (c : Char) : Bool := 48 ≤ charCode c && charCode c ≤ 57

/-- Python `\s` for `str` patterns / `str.strip()`: ASCII whitespace plus the
Unicode whitespace code points. -/
def isSpaceChar (c : Char) : Bool :=
  (9 ≤ charCode c && charCode c ≤ 13) || charCode c = 32 ||
  (28 ≤ charCode c && charCode c ≤ 31) || charCode c = 133 ||
  charCode c = 160 || charCode c = 5760 ||
  (8192 ≤ charCode c && charCode c ≤ 8202) ||
  charCode c = 8232 || charCode c = 8233 || charCode c = 8239 ||
  charCode c = 8287 || charCode c = 12288

/-- `str.lower()` on the ASCII range: maps `A`-`Z` to `a`-`z`, leaves every
other character unchanged. -/
def lowerChar (c : Char) : Char :=
  if 65 ≤ charCode c ∧ charCode c ≤ 90 then Char.ofNat (charCode c + 32) else c

/-- `str.upper()` on the ASCII range. -/
def upperChar (c : Char) : Char :=
  if 97 ≤ charCode c ∧ charCode c ≤ 122 then Char.ofNat (charCode c - 32) else c

/-- Lowercased character list of a string (`s.lower()`). -/
def lowerStr (s : String) : List Char := s.data.map lowerChar

/-- `toLowerS s` is `s.lower()` as a `String`. -/
def toLowerS (s : String) : String := ⟨lowerStr s⟩

/-- `needle.isPrefixOf`-based contiguous substring test: Python's
`needle in hay` for strings (an empty needle occurs in every string). -/
def isSubstr (needle : List Char) : List Char → Bool
  | [] => needle.isEmpty
  | c :: cs => needle.isPrefixOf (c :: cs) || isSubstr needle cs

/-- Splits a character list into the maximal runs of characters satisfying
`keep`, dropping the separators (the shape of `re.findall` over a
character-class regex, and of `str.split()`). -/
def splitRunsAux (keep : Char → Bool) : List Char → List Char → List (List Char)
  | [], acc => if acc.isEmpty then [] else [acc.reverse]
  | c :: cs, acc =>
    if keep c then splitRunsAux keep cs (c :: acc)
    else if acc.isEmpty then splitRunsAux keep cs []
    else acc.reverse :: splitRunsAux keep cs []

/-- Maximal runs of characters satisfying `keep`. -/
def splitRuns (keep : Char → Bool) (l : List Char) : List (List Char) :=
  splitRunsAux keep l []

/-- A character matched by the regex class `[a-z0-9]`. -/
def isTokenChar (c : Char) : Bool := isLowerAZ c || isDigitChar c

/-- `re.findall(r'[a-z0-9]+', l)`: the maximal alphanumeric (lowercase) runs. -/
def tokenize (l : List Char) : List (List Char) := splitRuns isTokenChar l

/-- Python's `round()` on an exact rational: round half to even. -/
def pyRound (q : ℚ) : ℤ :=
  if q - ⌊q⌋ < 1/2 then ⌊q⌋
  else if 1/2 < q - ⌊q⌋ then ⌊q⌋ + 1
  else if 2 ∣ ⌊q⌋ then ⌊q⌋ else ⌊q⌋ + 1

/-- Python's `str.strip()`: remove leading and trailing whitespace. -/
def pyStrip (l : List Char) : List Char :=
  ((l.dropWhile isSpaceChar).reverse.dropWhile isSpaceChar).reverse

/-! ## Trending items (`fetch_trending.py`) -/

/-- A trending item as assembled by the fetchers in `fetch_trending.py`:
only the fields read by `get_all_trending_topics` are modelled
(`keyword` and the numeric `score`). -/
structure Trend where
  keyword : String
  score : Int
deriving DecidableEq

/-- The word set the dedup loop of `get_all_trending_topics` feeds into the
Jaccard test: maximal `[a-z0-9]+` runs of the lowercased keyword, keeping
only words longer than 2 characters. -/
def significantWords (kl : List Char) : Finset (List Char) :=
  ((tokenize kl).filter (fun w => 2 < w.length)).toFinset

/-- The duplicate test of the dedup loop in `get_all_trending_topics`
(`fetch_trending.py:405-429`), comparing a candidate keyword against an
already accepted keyword: exact lowercase match, substring match either
way, or Jaccard similarity of the significant-word sets at least 0.5. -/
def isDupTrend (kw existing : String) : Bool :=
  if lowerStr kw = lowerStr existing then true
  else if isSubstr (lowerStr kw) (lowerStr existing) ||
      isSubstr (lowerStr existing) (lowerStr kw) then true
  else if significantWords (lowerStr kw) ≠ ∅ ∧
      significantWords (lowerStr existing) ≠ ∅ then
    decide ((1 : ℚ)/2 ≤
      (((significantWords (lowerStr kw) ∩ significantWords (lowerStr existing)).card : ℚ) /
        ((significantWords (lowerStr kw) ∪ significantWords (lowerStr existing)).card : ℚ)))
  else false

/-- The dedup loop of `get_all_trending_topics`: walk the (already sorted)
list, keeping an item only if it is not a duplicate of an already accepted
one; the first accepted (highest score) wins. -/
def dedupTrends (ts : List Trend) : List Trend :=
  ts.foldl
    (fun uniq t =>
      if uniq.any (fun e => isDupTrend t.keyword e.keyword) then uniq
      else uniq ++ [t])
    []

/-- Python `max(scores)` for a per-source list (`0` only for the empty list,
which `pyNormalize` never feeds to it). -/
def maxScores : List Trend → Int
  | [] => 0
  | t :: r => r.foldl (fun m u => max m u.score) t.score

/-- `max_score = max(scores) or 1` of `_normalize`: the run-local maximum,
with Python's falsy fallback from `0` to `1`. -/
def maxScoresOr1 (ts : List Trend) : Int :=
  if maxScores ts = 0 then 1 else maxScores ts

/-- The `_normalize` helper of `get_all_trending_topics`
(`fetch_trending.py:347-354`): an empty list is returned unchanged;
otherwise each score becomes `round((score / max_score) * 100)`. -/
def pyNormalize (ts : List Trend) : List Trend :=
  if ts = [] then ts
  else ts.map fun t =>
    { t with score := pyRound (((t.score : ℚ) / ((maxScoresOr1 ts : ℤ) : ℚ)) * 100) }

/-- All alphanumeric words of the lowercased keyword — the "vocabulary" of a
keyword for the disjointness statements about the dedup loop. -/
def vocabOf (s : String) : Finset (List Char) := (tokenize (lowerStr s)).toFinset

/-- Python `str.split()` word count of a keyword. -/
def pyWordCount (s : String) : Nat :=
  (splitRuns (fun c => !isSpaceChar c) s.data).length

/-- The fixed high-CPC keyword list of `get_all_trending_topics`
(`fetch_trending.py:372-391`), verbatim, including the padded entries
`' AI '` and `'EV '` (the code strips them before matching). -/
def HIGH_CPC_KEYWORDS : List String := [
  "insurance", "mortgage", "credit", "loan", "banking", "invest", "stock", "crypto",
  "bitcoin", "ethereum", "finance", "tax", "trading", "hedge fund", "interest rate",
  "federal reserve", "inflation", "recession", "economy", "GDP", "earnings",
  "lawsuit", "regulation", "compliance", "patent", "antitrust", "court", "legal",
  "privacy", "GDPR", "settlement",
  "health", "medical", "pharma", "drug", "FDA", "clinical trial", "vaccine",
  "healthcare", "biotech", "cancer", "disease", "therapy",
  "artificial intelligence", " AI ", "machine learning", "SaaS", "cloud", "enterprise",
  "cybersecurity", "data breach", "ransomware", "startup", "valuation", "IPO",
  "acquisition", "merger", "funding", "venture capital",
  "real estate", "housing", "property", "rent", "construction",
  "oil", "energy", "solar", "EV ", "electric vehicle", "battery", "nuclear"]

/-- `sum(1 for kw in HIGH_CPC_KEYWORDS if kw.lower().strip() in keyword_lower)`
(`fetch_trending.py:395`). -/
def cpcMatches (keyword : String) : Nat :=
  (HIGH_CPC_KEYWORDS.filter
    (fun kw => isSubstr (pyStrip (lowerStr kw)) (lowerStr keyword))).length

/-- The CPC boosting step of `get_all_trending_topics`
(`fetch_trending.py:393-400`) applied to one item: with `k` matches the
score becomes `max(round(score * min(1 + 0.5*k, 3.0)), 50)`; with no match
the item is left unchanged. -/
def boostTrend (t : Trend) : Trend :=
  if 0 < cpcMatches t.keyword then
    { t with score := max (pyRound ((t.score : ℚ) *
        (min (1 + (1/2) * (cpcMatches t.keyword : ℚ)) 3))) 50 }
  else t

/-! ## Ad placement (`optimize_adsense.py`)

The article HTML is modelled as a flat sequence of nodes: block-level
elements carrying their tag and text, and inserted AdSense ad units
carrying the client id, slot id and format (the contents of the markup
produced by `create_adsense_code`). `BeautifulSoup`'s `find_all` over a
flat document returns the block elements in order, and
`element.insert_after` splices the ad markup directly after that element,
which is what `insertAfterBlock` does. -/

/-- Block-level tags distinguished by `optimize_adsense.py`. -/
inductive Tag where
  | p | h2 | h3 | ul | ol | other
deriving DecidableEq

/-- A node of the (flat) article document. -/
inductive Node where
  | block (tag : Tag) (content : String)
  | ad (client_id slot_id fmt : String)
deriving DecidableEq

/-- Tags collected by `soup.find_all(['p', 'h2', 'h3', 'ul', 'ol'])`
(`optimize_adsense.py:146`). -/
def isBlockTag : Tag → Bool
  | .p | .h2 | .h3 | .ul | .ol => true
  | .other => false

/-- Tags collected by `soup.find_all(['p', 'h2', 'h3'])` in
`find_insertion_points` (`optimize_adsense.py:79`). -/
def isParaTag : Tag → Bool
  | .p | .h2 | .h3 => true
  | _ => false

/-- Whether a node is one of the block elements of
`optimize_ad_placement`. -/
def isBlockNode : Node → Bool
  | .block t _ => isBlockTag t
  | .ad _ _ _ => false

/-- Whether a node is a paragraph-level element of
`find_insertion_points`. -/
def isParaNode : Node → Bool
  | .block t _ => isParaTag t
  | .ad _ _ _ => false

/-- Whether a node is an inserted ad container. -/
def isAdNode : Node → Bool
  | .ad _ _ _ => true
  | .block _ _ => false

/-- Number of block elements of a document. -/
def countBlocks (doc : List Node) : Nat := (doc.filter isBlockNode).length

/-- Number of paragraph-level elements of a document. -/
def countParas (doc : List Node) : Nat := (doc.filter isParaNode).length

/-- `find_insertion_points` (`optimize_adsense.py:61-109`): from the count of
paragraph-level blocks compute `(after_intro, mid_content,
before_conclusion)`; fewer than 3 blocks yields `(0, 0, 0)`.
`int(total_blocks * 0.85)` is modelled as `total_blocks * 85 / 100`
(for every count arising in the theorems below the float expression
evaluates to the same integer). -/
def find_insertion_points (doc : List Node) : Nat × Nat × Nat :=
  let total := countParas doc
  if total < 3 then (0, 0, 0)
  else (min 2 (total / 4), total / 2, total * 85 / 100)

/-- The AdSense configuration dictionary: `client_id` plus the three named
slots of the `slots` sub-dictionary; a missing key is `none` (an empty
config is one with no `client_id`). -/
structure AdsConfig where
  client_id : Option String
  slots_header : Option String
  slots_in_article : Option String
  slots_sidebar : Option String

/-- The `ad_positions` argument of `optimize_ad_placement` (default: all
three positions enabled). -/
structure AdPositions where
  after_intro : Bool
  mid_content : Bool
  before_conclusion : Bool

/-- The default `ad_positions` of `optimize_ad_placement`. -/
def defaultAdPositions : AdPositions := ⟨true, true, true⟩

/-- Insert a node immediately after the `i`-th block element (counting only
block elements, exactly as `blocks[position].insert_after(ad_soup)` does
with the fixed list of block references); with no such block the document
is unchanged. -/
def insertAfterBlock : List Node → Nat → Node → List Node
  | [], _, _ => []
  | n :: rest, i, ad =>
    if isBlockNode n then
      if i = 0 then n :: ad :: rest
      else n :: insertAfterBlock rest (i - 1) ad
    else n :: insertAfterBlock rest i ad

/-- Stable insertion for a descending sort by position: the new element goes
after every element with a greater-or-equal key, matching Python's stable
`list.sort(key=..., reverse=True)`. -/
def insertDescending (x : Nat × Node) : List (Nat × Node) → List (Nat × Node)
  | [] => [x]
  | y :: ys => if x.1 ≤ y.1 then y :: insertDescending x ys else x :: y :: ys

/-- Stable descending sort by position (`positions_to_insert.sort(key=lambda
x: x[0], reverse=True)`). -/
def sortDescending (l : List (Nat × Node)) : List (Nat × Node) :=
  l.foldl (fun acc x => insertDescending x acc) []

/-- `optimize_ad_placement` (`optimize_adsense.py:112-200`): reject configs
without a `client_id` and documents with fewer than 3 block elements;
otherwise build the (position, ad) list for the enabled positions whose
slot is configured — `sidebar` at `before_conclusion` (format `auto`),
`in_article` at `mid_content` (format `fluid`), `header` at `after_intro`
(format `auto`) — sort it by descending position and insert each ad after
the block at its position (positions beyond the block list are skipped). -/
def optimize_ad_placement (doc : List Node) (cfg : AdsConfig)
    (pos : AdPositions := defaultAdPositions) : List Node :=
  match cfg.client_id with
  | none => doc
  | some cid =>
    if countBlocks doc < 3 then doc
    else
      let ip := find_insertion_points doc
      let toInsert : List (Nat × Node) :=
        (if pos.before_conclusion then
          match cfg.slots_sidebar with
          | some s => [(ip.2.2, Node.ad cid s "auto")]
          | none => []
        else []) ++
        (if pos.mid_content then
          match cfg.slots_in_article with
          | some s => [(ip.2.1, Node.ad cid s "fluid")]
          | none => []
        else []) ++
        (if pos.after_intro then
          match cfg.slots_header with
          | some s => [(ip.1, Node.ad cid s "auto")]
          | none => []
        else [])
      (sortDescending toInsert).foldl
        (fun d pn => if pn.1 < countBlocks doc then insertAfterBlock d pn.1 pn.2 else d)
        doc

/-! ## Slug generation (`save_article.py`) -/

/-- Character kept by the removal step `re.sub(r'[^a-z0-9\s-]', '', slug)`
(applied after lowercasing). -/
def isKeptChar (c : Char) : Bool :=
  isLowerAZ c || isDigitChar c || isSpaceChar c || charCode c = 45

/-- `re.sub(r'\s+', '-', l)`: replace each maximal whitespace run by a
single hyphen; the flag records whether the previous character was part of
a whitespace run. -/
def subSpaces : List Char → Bool → List Char
  | [], _ => []
  | c :: cs, inRun =>
    if isSpaceChar c then
      if inRun then subSpaces cs true else '-' :: subSpaces cs true
    else c :: subSpaces cs false

/-- `re.sub(r'-+', '-', l)`: collapse each maximal hyphen run to a single
hyphen; the flag records whether the previous character was a hyphen. -/
def collapseHyphens : List Char → Bool → List Char
  | [], _ => []
  | c :: cs, prevHyphen =>
    if charCode c = 45 then
      if prevHyphen then collapseHyphens cs true
      else '-' :: collapseHyphens cs true
    else c :: collapseHyphens cs false

/-- The hyphen-minus character. -/
def isHyphen (c : Char) : Bool := charCode c = 45

/-- Remove a trailing run of hyphens. -/
def dropTrailingHyphens : List Char → List Char
  | [] => []
  | c :: cs =>
    match dropTrailingHyphens cs with
    | [] => if charCode c = 45 then [] else [c]
    | r => c :: r

/-- `str.strip('-')`: remove leading and trailing hyphens. -/
def stripHyphens (l : List Char) : List Char :=
  dropTrailingHyphens (l.dropWhile isHyphen)

/-- A character that can occur in a finished slug: lowercase letter, digit
or hyphen (proof-side invariant, not a source function). -/
def slugChar (c : Char) : Bool := isLowerAZ c || isDigitChar c || charCode c = 45

/-- No two adjacent hyphens occur in the list (proof-side invariant). -/
def noDoubleHyphen : List Char → Bool
  | [] => true
  | [_] => true
  | a :: b :: t => !(charCode a = 45 && charCode b = 45) && noDoubleHyphen (b :: t)

/-- The list does not start with a hyphen (proof-side invariant). -/
def headNotHyphen : List Char → Bool
  | [] => true
  | c :: _ => !(charCode c = 45)

/-- The list does not end with a hyphen (proof-side invariant). -/
def lastNotHyphen : List Char → Bool
  | [] => true
  | [c] => !(charCode c = 45)
  | _ :: c :: t => lastNotHyphen (c :: t)

/-- `create_slug` (`save_article.py:32-57`) on a character list: lowercase,
remove everything but `[a-z0-9\s-]`, turn whitespace runs into hyphens,
collapse hyphen runs, strip boundary hyphens. -/
def create_slugL (l : List Char) : List Char :=
  stripHyphens (collapseHyphens (subSpaces ((l.map lowerChar).filter isKeptChar) false) false)

/-- `create_slug` on strings. -/
def create_slug (s : String) : String := ⟨create_slugL s.data⟩

/-! ## Content generation (`generate_content.py`) -/

/-- The `_STOPWORDS` set of `generate_content.py:35-47`, verbatim. -/
def STOPWORDS : List String := [
  "a", "an", "the", "is", "are", "was", "were", "be", "been", "being",
  "have", "has", "had", "do", "does", "did", "will", "would", "could",
  "should", "may", "might", "can", "shall", "to", "of", "in", "for",
  "on", "with", "at", "by", "from", "as", "into", "about", "between",
  "through", "after", "before", "during", "and", "but", "or", "not",
  "no", "nor", "so", "yet", "both", "either", "neither", "each",
  "every", "all", "any", "few", "more", "most", "other", "some",
  "such", "than", "too", "very", "just", "because", "if", "when",
  "how", "what", "why", "where", "who", "which", "that", "this",
  "it", "its", "you", "your", "we", "our", "they", "their", "them",
  "he", "she", "his", "her", "my", "me", "up", "out", "new"]

/-- `extract_words` inside `_is_similar` (`generate_content.py:97-99`): the
set of `[a-z0-9]+` runs of the text, keeping words longer than one
character that are not stopwords (the callers lowercase the text before
calling; uppercase characters act as separators, as in the regex). -/
def extractWords (text : String) : Finset (List Char) :=
  ((tokenize text.data).filter
    (fun w => 1 < w.length && !(STOPWORDS.any (fun s => s.data == w)))).toFinset

/-- The Jaccard similarity computed by `_is_similar`
(`generate_content.py:107-110`): `len(a & b) / len(a | b)` over the
stopword-filtered word sets (`0` when the union is empty). -/
def jaccardSim (a b : String) : ℚ :=
  let wa := extractWords a
  let wb := extractWords b
  if wa ∪ wb = ∅ then 0
  else ((wa ∩ wb).card : ℚ) / ((wa ∪ wb).card : ℚ)

/-- `_is_similar` (`generate_content.py:95-115`): `False` when either word
set is empty; `True` on a subset/superset relation; otherwise compare the
Jaccard similarity against the threshold. -/
def isSimilarPy (text_a text_b : String) (threshold : ℚ) : Bool :=
  let wa := extractWords text_a
  let wb := extractWords text_b
  if wa = ∅ ∨ wb = ∅ then false
  else if wa ⊆ wb ∨ wb ⊆ wa then true
  else decide (threshold ≤ jaccardSim text_a text_b)

/-- The candidate-rejection test of `generate_multiple_articles`
(`generate_content.py:388-416`): the lowercased topic is checked (in this
order, with early exit) against the recent trending keywords at threshold
0.4, the existing article titles at threshold 0.35, and the topics already
accepted in the current batch at threshold 0.4. -/
def topicIsDuplicate (topic_lower : String)
    (existing_keywords existing_titles used_topics : List String) : Bool :=
  if existing_keywords.any (fun kw => isSimilarPy topic_lower kw (2/5)) then true
  else if existing_titles.any (fun t => isSimilarPy topic_lower t (7/20)) then true
  else used_topics.any (fun u => isSimilarPy topic_lower u (2/5))

/-- `_is_semantic_duplicate` (`generate_content.py:118-155`) with the two
provider calls abstracted as their outcomes: a returned reply (`Except.ok`) or a
raised exception (`Except.error`). The Gemini API call is tried first; only
if it raises is the CLI call consulted; a reply counts as a duplicate
exactly when it equals `"YES"` after `strip().upper()`; if both calls raise
the function returns `False` (fail-open). -/
def isSemanticDuplicatePy (apiCall cliCall : Except String String) : Bool :=
  match apiCall with
  | .ok reply => (⟨(pyStrip reply.data).map upperChar⟩ : String) == "YES"
  | .error _ =>
    match cliCall with
    | .ok reply => (⟨(pyStrip reply.data).map upperChar⟩ : String) == "YES"
    | .error _ => false

/-- The fields of a generated article dictionary read by the
duplicate/length checks of `generate_multiple_articles`. -/
structure GenArticle where
  title : String
  word_count : Nat
deriving DecidableEq

/-- A topic dictionary entry: `topic_data.get('keyword',
topic_data.get('title', 'Unknown Topic'))`. -/
structure TopicData where
  keyword : Option String
  title : Option String
deriving DecidableEq

/-- The keyword `generate_multiple_articles` extracts from a topic entry. -/
def topicOf (td : TopicData) : String :=
  match td.keyword with
  | some k => k
  | none => match td.title with
    | some t => t
    | none => "Unknown Topic"

/-- The generation loop of `generate_multiple_articles`
(`generate_content.py:374-440`). `gen` abstracts `generate_article`
(`none` for a falsy/empty result) and `semDup` abstracts
`_is_semantic_duplicate` against the current title set. The loop walks the
topics while fewer than `articles_count` articles are accepted, skipping
already-used topics, topics similar to existing keywords/titles/batch
topics, failed generations, articles shorter than 500 words, and semantic
duplicates; an accepted article extends the batch, the used-topic set and
the existing-title set. -/
def gmaLoop (gen : String → Option GenArticle)
    (semDup : String → List String → Bool)
    (articles_count : Nat) (existing_keywords : List String) :
    List TopicData → List GenArticle → List String → List String → List GenArticle
  | [], articles, _, _ => articles
  | td :: rest, articles, used_topics, existing_titles =>
    if articles_count ≤ articles.length then articles
    else if used_topics.contains (toLowerS (topicOf td)) then
      gmaLoop gen semDup articles_count existing_keywords rest articles used_topics existing_titles
    else if topicIsDuplicate (toLowerS (topicOf td)) existing_keywords existing_titles used_topics then
      gmaLoop gen semDup articles_count existing_keywords rest articles used_topics existing_titles
    else
      match gen (topicOf td) with
      | some article =>
        if 500 ≤ article.word_count then
          if !existing_titles.isEmpty && semDup article.title existing_titles then
            gmaLoop gen semDup articles_count existing_keywords rest articles used_topics existing_titles
          else
            gmaLoop gen semDup articles_count existing_keywords rest
              (articles ++ [article]) (used_topics ++ [toLowerS (topicOf td)])
              (existing_titles ++ [toLowerS article.title])
        else
          gmaLoop gen semDup articles_count existing_keywords rest articles used_topics existing_titles
      | none =>
        gmaLoop gen semDup articles_count existing_keywords rest articles used_topics existing_titles

/-- `generate_multiple_articles`, starting from the preloaded existing
titles (already lowercased) and trending keywords. -/
def generate_multiple_articles (gen : String → Option GenArticle)
    (semDup : String → List String → Bool) (topics : List TopicData)
    (articles_count : Nat)
    (existing_titles existing_keywords : List String) : List GenArticle :=
  gmaLoop gen semDup articles_count existing_keywords topics [] [] existing_titles

/-! ## Persistence (`database.py`, `save_article.py`) -/

/-- The `articles` table, as the list of its rows' `(slug, title)` columns
(the other columns play no role in the claims below). -/
structure DBState where
  rows : List (String × String)
deriving DecidableEq

/-- `DatabaseClient.check_slug_exists` (`database.py:260-287`): whether a
row with the given slug exists. -/
def check_slug_exists (db : DBState) (slug : String) : Bool :=
  db.rows.any (fun r => r.1 == slug)

/-- `DatabaseClient.create_article` (`database.py:77-174`), restricted to
its effect on the table state: insert the new row and return it. -/
def create_article (db : DBState) (slug title : String) :
    Option (String × String) × DBState :=
  (some (slug, title), ⟨db.rows ++ [(slug, title)]⟩)

/-- The article dictionary fields `save_article_to_database` reads. -/
structure ArticleDict where
  title : String
deriving DecidableEq

/-- `save_article_to_database` (`save_article.py:60-119`) as a state
transformer: when the database is unavailable/disabled, or when the slug
derived from the title already exists, return `False` with the state
unchanged (no `create_article` call); otherwise insert via
`create_article` and return `True` on a non-`None` result. -/
def save_article_to_database (enabled : Bool) (db : DBState)
    (article : ArticleDict) : Bool × DBState :=
  if !enabled then (false, db)
  else
    let slug := create_slug article.title
    if check_slug_exists db slug then (false, db)
    else
      match create_article db slug article.title with
      | (some _, db2) => (true, db2)
      | (none, db2) => (false, db2)

/-- The two-item normalization example used as a witness input. -/
def demoTrends : List Trend := [⟨"a", 2⟩, ⟨"b", 4⟩]

/-! ## Helper lemmas -/

theorem isPrefixOf_self (l : List Char) : l.isPrefixOf l = true := by
  induction l with
  | nil => rfl
  | cons c cs ih => simp [List.isPrefixOf, ih]

theorem isSubstr_self (l : List Char) : isSubstr l l = true := by
  cases l with
  | nil => rfl
  | cons c cs => simp [isSubstr, isPrefixOf_self]

theorem significantWords_subset_vocab (s : String) :
    significantWords (lowerStr s) ⊆ vocabOf s := by
  intro x hx
  unfold significantWords at hx
  unfold vocabOf
  rw [List.mem_toFinset] at hx ⊢
  exact (List.mem_filter.mp hx).1

theorem pyRound_intCast (k : ℤ) : pyRound ((k : ℚ)) = k := by
  unfold pyRound
  norm_num

theorem pyRound_eq_intCast {q : ℚ} {k : ℤ} (h : q = (k : ℚ)) : pyRound q = k := by
  rw [h]
  exact pyRound_intCast k

theorem pyRound_nonneg {q : ℚ} (h : 0 ≤ q) : 0 ≤ pyRound q := by
  unfold pyRound
  have h0 : 0 ≤ ⌊q⌋ := Int.floor_nonneg.mpr h
  split_ifs <;> omega

theorem pyRound_le {q : ℚ} {k : ℤ} (h : q ≤ (k : ℚ)) : pyRound q ≤ k := by
  unfold pyRound
  have h1 : ⌊q⌋ ≤ k := by
    have := Int.floor_le_floor h
    simpa using this
  split_ifs with hc1 hc2 hc3
  · exact h1
  · have hge : 1/2 ≤ q - (⌊q⌋ : ℚ) := not_lt.mp hc1
    have hfl : (⌊q⌋ : ℚ) ≤ q := Int.floor_le q
    have : (⌊q⌋ : ℚ) < (k : ℚ) := by linarith
    have : ⌊q⌋ < k := by exact_mod_cast this
    omega
  · exact h1
  · have hge : 1/2 ≤ q - (⌊q⌋ : ℚ) := not_lt.mp hc1
    have : (⌊q⌋ : ℚ) < (k : ℚ) := by linarith
    have : ⌊q⌋ < k := by exact_mod_cast this
    omega

theorem jaccard_decide_false {A B : Finset (List Char)} (h : A ∩ B = ∅) :
    decide ((1 : ℚ)/2 ≤ ((A ∩ B).card : ℚ) / ((A ∪ B).card : ℚ)) = false := by
  rw [h, Finset.card_empty]
  rw [decide_eq_false_iff_not]
  push_cast
  rw [zero_div]
  norm_num

theorem foldl_max_init_le (r : List Trend) (a : Int) :
    a ≤ r.foldl (fun m u => max m u.score) a := by
  induction r generalizing a with
  | nil => simp
  | cons u r ih =>
    simp only [List.foldl_cons]
    exact le_trans (le_max_left _ _) (ih _)

theorem mem_le_foldl_max (r : List Trend) (a : Int) :
    ∀ u ∈ r, u.score ≤ r.foldl (fun m u => max m u.score) a := by
  induction r generalizing a with
  | nil => simp
  | cons v r ih =>
    intro u hu
    rcases List.mem_cons.mp hu with rfl | hu
    · simp only [List.foldl_cons]
      exact le_trans (le_max_right _ _) (foldl_max_init_le _ _)
    · simp only [List.foldl_cons]
      exact ih _ u hu

theorem le_maxScores {ts : List Trend} {t : Trend} (h : t ∈ ts) :
    t.score ≤ maxScores ts := by
  cases ts with
  | nil => cases h
  | cons a r =>
    rcases List.mem_cons.mp h with rfl | h
    · exact foldl_max_init_le r t.score
    · exact mem_le_foldl_max r a.score t h

theorem foldl_max_le (r : List Trend) (a c : Int) (ha : a ≤ c)
    (h : ∀ u ∈ r, u.score ≤ c) : r.foldl (fun m u => max m u.score) a ≤ c := by
  induction r generalizing a with
  | nil => simpa
  | cons v r ih =>
    simp only [List.foldl_cons]
    refine ih _ (max_le ha (h v (List.mem_cons_self _ _))) ?_
    intro u hu
    exact h u (List.mem_cons_of_mem _ hu)

theorem maxScores_of_all_zero {ts : List Trend} (h : ∀ t ∈ ts, t.score = 0) :
    maxScores ts = 0 := by
  cases ts with
  | nil => rfl
  | cons a r =>
    have h1 : maxScores (a :: r) ≤ 0 := by
      unfold maxScores
      refine foldl_max_le r a.score 0 (le_of_eq (h a (List.mem_cons_self _ _))) ?_
      intro u hu
      exact le_of_eq (h u (List.mem_cons_of_mem _ hu))
    have h2 : a.score ≤ maxScores (a :: r) := le_maxScores (List.mem_cons_self _ _)
    have h3 : a.score = 0 := h a (List.mem_cons_self _ _)
    omega

theorem normalize_length (ts : List Trend) :
    (pyNormalize ts).length = ts.length := by
  unfold pyNormalize
  split <;> simp

theorem zip_map_self {α β : Type} (g : α → β) (l : List α) :
    l.zip (l.map g) = l.map (fun a => (a, g a)) := by
  induction l with
  | nil => rfl
  | cons a l ih => simp [ih]

theorem pyNormalize_eq_map {ts : List Trend} (hne : ts ≠ []) :
    pyNormalize ts = ts.map
      (fun t => { t with
        score := pyRound (((t.score : ℚ) / ((maxScoresOr1 ts : ℤ) : ℚ)) * 100) }) := by
  unfold pyNormalize
  rw [if_neg hne]

theorem maxScoresOr1_of_ne {ts : List Trend} (h : maxScores ts ≠ 0) :
    maxScoresOr1 ts = maxScores ts := if_neg h


/-! ## Claim theorems -/

/-- Claim C1, counterexample: the keywords `"Smart Cars"` and `"art"` have
disjoint vocabularies (no shared alphanumeric words), yet the dedup loop of
`get_all_trending_topics` collapses the pair to a single retained item,
because `"art"` is a character substring of `"smart cars"`; the claim that
disjoint-vocabulary keywords never collapse is therefore false. -/
theorem dedup_disjoint_vocab_cex :
    vocabOf "Smart Cars" ∩ vocabOf "art" = ∅ ∧
    (dedupTrends [⟨"Smart Cars", 90⟩, ⟨"art", 10⟩]).length = 1 := by
  decide

/-- Claim C1 (amended): in the dedup loop of `get_all_trending_topics`, for
every pair of input items: two keywords identical up to case collapse to
the one retained (first) item; a keyword that is a 3-word substring of the
other collapses into it (in either input order); and two keywords with
disjoint vocabularies, *neither of which is a case-insensitive character
substring of the other*, never collapse, whatever their scores. -/
theorem dedup_pair_spec :
    (∀ a b : Trend, lowerStr a.keyword = lowerStr b.keyword →
      dedupTrends [a, b] = [a]) ∧
    (∀ a b : Trend, pyWordCount b.keyword = 3 →
      isSubstr (lowerStr b.keyword) (lowerStr a.keyword) = true →
      (dedupTrends [a, b]).length = 1 ∧ (dedupTrends [b, a]).length = 1) ∧
    (∀ a b : Trend, vocabOf a.keyword ∩ vocabOf b.keyword = ∅ →
      isSubstr (lowerStr a.keyword) (lowerStr b.keyword) = false →
      isSubstr (lowerStr b.keyword) (lowerStr a.keyword) = false →
      dedupTrends [a, b] = [a, b]) := by
  refine ⟨?_, ?_, ?_⟩
  · intro a b h
    simp [dedupTrends, isDupTrend, h]
  · intro a b _ h
    constructor
    · by_cases heq : lowerStr b.keyword = lowerStr a.keyword <;>
        simp [dedupTrends, isDupTrend, heq, h]
    · by_cases heq : lowerStr a.keyword = lowerStr b.keyword <;>
        simp [dedupTrends, isDupTrend, heq, h]
  · intro a b hdisj hab hba
    have hne : lowerStr b.keyword ≠ lowerStr a.keyword := by
      intro he
      rw [he] at hba
      rw [isSubstr_self] at hba
      simp at hba
    have hint : significantWords (lowerStr b.keyword) ∩
        significantWords (lowerStr a.keyword) = ∅ := by
      have hsub : significantWords (lowerStr b.keyword) ∩
          significantWords (lowerStr a.keyword) ⊆
          vocabOf b.keyword ∩ vocabOf a.keyword :=
        Finset.inter_subset_inter (significantWords_subset_vocab b.keyword)
          (significantWords_subset_vocab a.keyword)
      rw [Finset.inter_comm] at hdisj
      rw [hdisj] at hsub
      exact Finset.subset_empty.mp hsub
    have hdup : isDupTrend b.keyword a.keyword = false := by
      unfold isDupTrend
      rw [if_neg hne, if_neg (by simp [hab, hba])]
      split
      · exact jaccard_decide_false hint
      · rfl
    simp [dedupTrends, hdup]

/-- Claim C1 witness: the three parts of `dedup_pair_spec` instantiated —
`"AI Boom"`/`"ai boom"` collapse to the first item, the 3-word substring
`"Launches New Model"` collapses into `"OpenAI Launches New Model Today"`,
and the disjoint, non-substring pair `"bitcoin surges"`/`"quantum
computing"` is left as two items. -/
theorem dedup_pair_spec_witness :
    dedupTrends [⟨"AI Boom", 80⟩, ⟨"ai boom", 20⟩] = [⟨"AI Boom", 80⟩] ∧
    (dedupTrends [⟨"OpenAI Launches New Model Today", 70⟩,
      ⟨"Launches New Model", 30⟩]).length = 1 ∧
    dedupTrends [⟨"bitcoin surges", 60⟩, ⟨"quantum computing", 40⟩] =
      [⟨"bitcoin surges", 60⟩, ⟨"quantum computing", 40⟩] :=
  ⟨dedup_pair_spec.1 _ _ (by decide),
   (dedup_pair_spec.2.1 _ _ (by decide) (by decide)).1,
   dedup_pair_spec.2.2 _ _ (by decide) (by decide) (by decide)⟩

/-- Claim C2, counterexample: on the one-item source list with score `0`
(maximum input score `0`), `_normalize` maps the maximum-score item to `0`,
not to `100` (the divisor falls back to `1` via `max(scores) or 1`), so the
claim that the maximum input always maps to exactly 100 is false. -/
theorem normalize_zero_max_cex :
    maxScores [Trend.mk "hn" 0] = 0 ∧
    (([Trend.mk "hn" 0]).zip (pyNormalize [Trend.mk "hn" 0])).map
      (fun p => (p.1.score, p.2.score)) = [(0, 0)] := by
  have h : pyNormalize [Trend.mk "hn" 0] = [Trend.mk "hn" 0] := by
    rw [pyNormalize_eq_map (by decide)]
    have hm : maxScoresOr1 [Trend.mk "hn" 0] = 1 := by decide
    rw [List.map_cons, List.map_nil, hm]
    rw [pyRound_eq_intCast (k := 0) (by norm_num)]
  rw [h]
  decide

/-- Claim C2 (amended): `_normalize` returns the empty source list
unchanged; a list whose scores are all zero keeps every score `0`; and for
every source list of nonnegative scores with a positive maximum, the
output scores all lie in `[0, 100]` and every item carrying the maximum
input score is mapped to exactly `100` (items are paired positionally via
`zip`; the length is preserved). -/
theorem normalize_spec :
    pyNormalize [] = [] ∧
    (∀ ts : List Trend, (∀ t ∈ ts, t.score = 0) →
      (pyNormalize ts).map Trend.score = ts.map fun _ => (0 : Int)) ∧
    ∀ ts : List Trend, (∀ t ∈ ts, 0 ≤ t.score) → 0 < maxScores ts →
      (pyNormalize ts).length = ts.length ∧
      (∀ t ∈ pyNormalize ts, 0 ≤ t.score ∧ t.score ≤ 100) ∧
      ∀ p ∈ ts.zip (pyNormalize ts), p.1.score = maxScores ts →
        p.2.score = 100 := by
  refine ⟨rfl, ?_, ?_⟩
  · intro ts hz
    by_cases hnil : ts = []
    · rw [hnil]
      rfl
    · have hm : maxScores ts = 0 := maxScores_of_all_zero hz
      rw [pyNormalize_eq_map hnil, List.map_map]
      refine List.map_congr_left ?_
      intro t ht
      show pyRound (((t.score : ℚ) / ((maxScoresOr1 ts : ℤ) : ℚ)) * 100) = 0
      rw [hz t ht]
      exact pyRound_eq_intCast (by norm_num)
  · intro ts hnn hpos
    have hne : ts ≠ [] := by
      rintro rfl
      simp [maxScores] at hpos
    have hm0 : maxScores ts ≠ 0 := by omega
    have hmap : pyNormalize ts = ts.map
        (fun t => { t with
          score := pyRound (((t.score : ℚ) / ((maxScores ts : ℤ) : ℚ)) * 100) }) := by
      rw [pyNormalize_eq_map hne, maxScoresOr1_of_ne hm0]
    refine ⟨normalize_length ts, ?_, ?_⟩
    · intro t2 ht2
      rw [hmap] at ht2
      rcases List.mem_map.mp ht2 with ⟨t, ht, rfl⟩
      have h1 : 0 ≤ t.score := hnn t ht
      have h2 : t.score ≤ maxScores ts := le_maxScores ht
      have hmq : (0 : ℚ) < ((maxScores ts : ℤ) : ℚ) := by exact_mod_cast hpos
      have hq0 : 0 ≤ ((t.score : ℚ) / ((maxScores ts : ℤ) : ℚ)) * 100 := by
        apply mul_nonneg _ (by norm_num)
        apply div_nonneg _ (le_of_lt hmq)
        exact_mod_cast h1
      have hq100 : ((t.score : ℚ) / ((maxScores ts : ℤ) : ℚ)) * 100 ≤
          ((100 : ℤ) : ℚ) := by
        have hr : (t.score : ℚ) / ((maxScores ts : ℤ) : ℚ) ≤ 1 :=
          (div_le_one hmq).mpr (by exact_mod_cast h2)
        have := mul_le_mul_of_nonneg_right hr (by norm_num : (0:ℚ) ≤ 100)
        rw [one_mul] at this
        exact this.trans (by norm_num)
      exact ⟨pyRound_nonneg hq0, pyRound_le hq100⟩
    · intro p hp hmax
      rw [hmap, zip_map_self] at hp
      rcases List.mem_map.mp hp with ⟨t, _, rfl⟩
      simp only at hmax ⊢
      rw [hmax]
      have hmq : ((maxScores ts : ℤ) : ℚ) ≠ 0 := by exact_mod_cast hm0
      rw [div_self hmq, one_mul]
      exact pyRound_eq_intCast (by norm_num)

/-- Claim C2 witness: on the source list `[("a", 2), ("b", 4)]` the
normalized output has the same length, and the first output score is in
`[0, 100]` (the normalized list is `[("a", 50), ("b", 100)]`). -/
theorem normalize_spec_witness :
    (pyNormalize demoTrends).length = demoTrends.length ∧
    (0 ≤ (Trend.mk "a" 50).score ∧ (Trend.mk "a" 50).score ≤ 100) := by
  have happ := normalize_spec.2.2 demoTrends (by decide) (by decide)
  have heval : pyNormalize demoTrends = [Trend.mk "a" 50, Trend.mk "b" 100] := by
    rw [pyNormalize_eq_map (by decide)]
    have hm : maxScoresOr1 demoTrends = 4 := by decide
    rw [hm]
    show [Trend.mk "a" (pyRound ((((2 : ℤ) : ℚ) / ((4 : ℤ) : ℚ)) * 100)),
          Trend.mk "b" (pyRound ((((4 : ℤ) : ℚ) / ((4 : ℤ) : ℚ)) * 100))] = _
    rw [pyRound_eq_intCast (k := 50) (by norm_num),
      pyRound_eq_intCast (k := 100) (by norm_num)]
  exact ⟨happ.1, happ.2.1 (Trend.mk "a" 50)
    (by rw [heval]; exact List.mem_cons_self _ _)⟩

/-- Claim C3: in the boosting step of `get_all_trending_topics`, an item
whose keyword has `k ≥ 1` case-insensitive substring matches against the
fixed high-CPC keyword list gets score `max(round(score * min(1 + 0.5*k,
3.0)), 50)` — the score multiplied by `min(1 + 0.5*k, 3.0)` (rounded) and
floored at 50 — while an item with `k = 0` matches is left unchanged. -/
theorem cpc_boost_spec :
    ∀ t : Trend,
      (1 ≤ cpcMatches t.keyword →
        (boostTrend t).score =
          max (pyRound ((t.score : ℚ) *
            (min (1 + (1/2) * (cpcMatches t.keyword : ℚ)) 3))) 50) ∧
      (cpcMatches t.keyword = 0 → boostTrend t = t) := by
  intro t
  constructor
  · intro h
    unfold boostTrend
    rw [if_pos (by omega)]
  · intro h
    unfold boostTrend
    rw [if_neg (by omega)]

/-- Claim C3 witness: `"Bitcoin and crypto markets rally"` matches two
high-CPC terms (`bitcoin`, `crypto`), so a score of 30 is boosted to
`max(round(30 * 2.0), 50) = 60`; `"Hello World Photos"` matches none and
its item is unchanged. -/
theorem cpc_boost_spec_witness :
    1 ≤ cpcMatches "Bitcoin and crypto markets rally" ∧
    (boostTrend ⟨"Bitcoin and crypto markets rally", 30⟩).score = 60 ∧
    cpcMatches "Hello World Photos" = 0 ∧
    boostTrend ⟨"Hello World Photos", 30⟩ = ⟨"Hello World Photos", 30⟩ := by
  refine ⟨by decide, ?_, by decide,
    (cpc_boost_spec ⟨"Hello World Photos", 30⟩).2 (by decide)⟩
  rw [(cpc_boost_spec ⟨"Bitcoin and crypto markets rally", 30⟩).1 (by decide)]
  have hk : cpcMatches "Bitcoin and crypto markets rally" = 2 := by decide
  rw [hk]
  rw [pyRound_eq_intCast (k := 60) (by norm_num)]
  decide

theorem isBlockTag_of_isParaTag : ∀ t : Tag, isParaTag t = true → isBlockTag t = true := by
  intro t ht
  cases t <;> simp_all [isParaTag, isBlockTag]

theorem find_insertion_points_of_four {doc : List Node} (h : countParas doc = 4) :
    find_insertion_points doc = (1, 2, 3) := by
  unfold find_insertion_points
  rw [h]
  decide

/-- Claim C4: for an HTML document consisting of exactly 4 paragraph-level
blocks and an AdSense config with a `client_id` and the three named slots,
`optimize_ad_placement` (with the default positions) returns the document
with exactly 3 ad containers inserted: the `header` slot after the 2nd
block (`after_intro = min(2, 4//4) = 1`, ≈25%), the `in_article` slot
after the 3rd block (`mid_content = 4//2 = 2`, 50%), and the `sidebar`
slot after the 4th block (`before_conclusion = int(4*0.85) = 3`, 85%) —
each after a distinct block, in block order. -/
theorem ad_placement_four_blocks :
    ∀ (t1 t2 t3 t4 : Tag) (c1 c2 c3 c4 cid sh si ss : String),
      isParaTag t1 = true → isParaTag t2 = true →
      isParaTag t3 = true → isParaTag t4 = true →
      optimize_ad_placement
          [Node.block t1 c1, Node.block t2 c2, Node.block t3 c3, Node.block t4 c4]
          ⟨some cid, some sh, some si, some ss⟩ defaultAdPositions =
        [Node.block t1 c1, Node.block t2 c2, Node.ad cid sh "auto",
         Node.block t3 c3, Node.ad cid si "fluid",
         Node.block t4 c4, Node.ad cid ss "auto"] ∧
      ((optimize_ad_placement
          [Node.block t1 c1, Node.block t2 c2, Node.block t3 c3, Node.block t4 c4]
          ⟨some cid, some sh, some si, some ss⟩ defaultAdPositions).filter
        isAdNode).length = 3 := by
  intro t1 t2 t3 t4 c1 c2 c3 c4 cid sh si ss h1 h2 h3 h4
  have hpara : countParas [Node.block t1 c1, Node.block t2 c2,
      Node.block t3 c3, Node.block t4 c4] = 4 := by
    simp [countParas, isParaNode, h1, h2, h3, h4]
  have hblocks : countBlocks [Node.block t1 c1, Node.block t2 c2,
      Node.block t3 c3, Node.block t4 c4] = 4 := by
    simp [countBlocks, isBlockNode, isBlockTag_of_isParaTag t1 h1,
      isBlockTag_of_isParaTag t2 h2, isBlockTag_of_isParaTag t3 h3,
      isBlockTag_of_isParaTag t4 h4]
  have heq : optimize_ad_placement
      [Node.block t1 c1, Node.block t2 c2, Node.block t3 c3, Node.block t4 c4]
      ⟨some cid, some sh, some si, some ss⟩ defaultAdPositions =
      [Node.block t1 c1, Node.block t2 c2, Node.ad cid sh "auto",
       Node.block t3 c3, Node.ad cid si "fluid",
       Node.block t4 c4, Node.ad cid ss "auto"] := by
    have hfip := find_insertion_points_of_four hpara
    unfold optimize_ad_placement
    rw [hblocks, hfip]
    simp [defaultAdPositions, sortDescending, insertDescending, insertAfterBlock,
      isBlockNode, isBlockTag_of_isParaTag t1 h1, isBlockTag_of_isParaTag t2 h2,
      isBlockTag_of_isParaTag t3 h3, isBlockTag_of_isParaTag t4 h4]
  refine ⟨heq, ?_⟩
  rw [heq]
  rfl

/-- Claim C4 witness: a concrete 4-paragraph document with a full 3-slot
config yields the three ads after blocks 2, 3 and 4. -/
theorem ad_placement_four_blocks_witness :
    optimize_ad_placement
        [Node.block .p "intro", Node.block .h2 "head", Node.block .p "body",
         Node.block .p "end"]
        ⟨some "ca-pub-1", some "111", some "222", some "333"⟩
        defaultAdPositions =
      [Node.block .p "intro", Node.block .h2 "head", Node.ad "ca-pub-1" "111" "auto",
       Node.block .p "body", Node.ad "ca-pub-1" "222" "fluid",
       Node.block .p "end", Node.ad "ca-pub-1" "333" "auto"] :=
  (ad_placement_four_blocks .p .h2 .p .p "intro" "head" "body" "end"
    "ca-pub-1" "111" "222" "333" rfl rfl rfl rfl).1

/-- Claim C9: `optimize_ad_placement` returns the input document completely
unchanged whenever the config lacks a `client_id` (in particular when it is
empty) or the document has fewer than 3 block-level elements
(p/h2/h3/ul/ol), for every choice of enabled ad positions. -/
theorem ad_placement_rejection_identity :
    ∀ (doc : List Node) (cfg : AdsConfig) (pos : AdPositions),
      cfg.client_id = none ∨ countBlocks doc < 3 →
      optimize_ad_placement doc cfg pos = doc := by
  intro doc cfg pos h
  rcases h with h | h
  · unfold optimize_ad_placement
    rw [h]
  · unfold optimize_ad_placement
    cases hc : cfg.client_id with
    | none => rfl
    | some cid =>
      dsimp only
      rw [if_pos h]

/-- Claim C9 witness: a one-paragraph document with a full config, and any
document with a config lacking `client_id`, are both returned unchanged. -/
theorem ad_placement_rejection_identity_witness :
    optimize_ad_placement [Node.block .p "only"]
        ⟨some "ca-pub-1", some "111", some "222", some "333"⟩
        defaultAdPositions = [Node.block .p "only"] ∧
    optimize_ad_placement
        [Node.block .p "a", Node.block .p "b", Node.block .p "c",
         Node.block .p "d"]
        ⟨none, some "111", some "222", some "333"⟩ defaultAdPositions =
      [Node.block .p "a", Node.block .p "b", Node.block .p "c",
       Node.block .p "d"] :=
  ⟨ad_placement_rejection_identity _ _ _ (Or.inr (by decide)),
   ad_placement_rejection_identity _ _ _ (Or.inl rfl)⟩

theorem charCode_inj {c d : Char} (h : charCode c = charCode d) : c = d := by
  unfold charCode at h
  apply Char.eq_of_val_eq
  apply UInt32.eq_of_toBitVec_eq
  apply BitVec.eq_of_toNat_eq
  exact h

theorem slugChar_lowerChar {c : Char} (h : slugChar c = true) : lowerChar c = c := by
  simp only [slugChar, isLowerAZ, isDigitChar, Bool.or_eq_true, Bool.and_eq_true,
    decide_eq_true_eq] at h
  unfold lowerChar
  rw [if_neg (by omega)]

theorem slugChar_not_space {c : Char} (h : slugChar c = true) : isSpaceChar c = false := by
  cases hs : isSpaceChar c with
  | false => rfl
  | true =>
    exfalso
    simp only [slugChar, isLowerAZ, isDigitChar, Bool.or_eq_true, Bool.and_eq_true,
      decide_eq_true_eq] at h
    simp only [isSpaceChar, Bool.or_eq_true, Bool.and_eq_true, decide_eq_true_eq] at hs
    omega

theorem slugChar_kept {c : Char} (h : slugChar c = true) : isKeptChar c = true := by
  simp only [slugChar, isLowerAZ, isDigitChar, Bool.or_eq_true, Bool.and_eq_true,
    decide_eq_true_eq] at h
  simp only [isKeptChar, isLowerAZ, isDigitChar, isSpaceChar, Bool.or_eq_true,
    Bool.and_eq_true, decide_eq_true_eq]
  omega

theorem slugChar_of_kept {c : Char} (hk : isKeptChar c = true) (hs : isSpaceChar c = false) :
    slugChar c = true := by
  have hsp : ¬ (isSpaceChar c = true) := by simp [hs]
  simp only [isKeptChar, isLowerAZ, isDigitChar, isSpaceChar, Bool.or_eq_true,
    Bool.and_eq_true, decide_eq_true_eq] at hk
  simp only [isSpaceChar, Bool.or_eq_true, Bool.and_eq_true, decide_eq_true_eq] at hsp
  simp only [slugChar, isLowerAZ, isDigitChar, Bool.or_eq_true, Bool.and_eq_true,
    decide_eq_true_eq]
  omega

theorem mem_subSpaces {l : List Char} (hl : ∀ c ∈ l, isKeptChar c = true) :
    ∀ (b : Bool), ∀ c ∈ subSpaces l b, (c ∈ l ∧ isSpaceChar c = false) ∨ charCode c = 45 := by
  induction l with
  | nil => intro b c hc; simp [subSpaces] at hc
  | cons a l ih =>
    intro b c hc
    have hl2 : ∀ c ∈ l, isKeptChar c = true := fun c hc => hl c (List.mem_cons_of_mem _ hc)
    unfold subSpaces at hc
    by_cases ha : isSpaceChar a = true
    · rw [if_pos ha] at hc
      cases b with
      | true =>
        rcases ih hl2 true c hc with ⟨h1, h2⟩ | h
        · exact Or.inl ⟨List.mem_cons_of_mem _ h1, h2⟩
        · exact Or.inr h
      | false =>
        rcases List.mem_cons.mp hc with rfl | hc2
        · exact Or.inr rfl
        · rcases ih hl2 true c hc2 with ⟨h1, h2⟩ | h
          · exact Or.inl ⟨List.mem_cons_of_mem _ h1, h2⟩
          · exact Or.inr h
    · rw [if_neg ha] at hc
      rcases List.mem_cons.mp hc with rfl | hc2
      · exact Or.inl ⟨List.mem_cons_self _ _, by simpa using ha⟩
      · rcases ih hl2 false c hc2 with ⟨h1, h2⟩ | h
        · exact Or.inl ⟨List.mem_cons_of_mem _ h1, h2⟩
        · exact Or.inr h

theorem mem_collapseHyphens {l : List Char} :
    ∀ (b : Bool), ∀ c ∈ collapseHyphens l b, c ∈ l ∨ charCode c = 45 := by
  induction l with
  | nil => intro b c hc; simp [collapseHyphens] at hc
  | cons a l ih =>
    intro b c hc
    unfold collapseHyphens at hc
    by_cases ha : charCode a = 45
    · rw [if_pos ha] at hc
      cases b with
      | true =>
        rcases ih true c hc with h | h
        · exact Or.inl (List.mem_cons_of_mem _ h)
        · exact Or.inr h
      | false =>
        rcases List.mem_cons.mp hc with rfl | hc2
        · exact Or.inr rfl
        · rcases ih true c hc2 with h | h
          · exact Or.inl (List.mem_cons_of_mem _ h)
          · exact Or.inr h
    · rw [if_neg ha] at hc
      rcases List.mem_cons.mp hc with rfl | hc2
      · exact Or.inl (List.mem_cons_self _ _)
      · rcases ih false c hc2 with h | h
        · exact Or.inl (List.mem_cons_of_mem _ h)
        · exact Or.inr h

theorem mem_dropTrailingHyphens {l : List Char} :
    ∀ c ∈ dropTrailingHyphens l, c ∈ l := by
  induction l with
  | nil => intro c hc; simp [dropTrailingHyphens] at hc
  | cons a l ih =>
    intro c hc
    unfold dropTrailingHyphens at hc
    cases hd : dropTrailingHyphens l with
    | nil =>
      rw [hd] at hc
      by_cases ha : charCode a = 45
      · rw [if_pos ha] at hc
        simp at hc
      · rw [if_neg ha] at hc
        rcases List.mem_cons.mp hc with rfl | hc2
        · exact List.mem_cons_self _ _
        · simp at hc2
    | cons r rs =>
      rw [hd] at hc
      rcases List.mem_cons.mp hc with rfl | hc2
      · exact List.mem_cons_self _ _
      · rw [← hd] at hc2
        exact List.mem_cons_of_mem _ (ih c hc2)

theorem mem_dropWhile_isHyphen {l : List Char} :
    ∀ c ∈ l.dropWhile isHyphen, c ∈ l := by
  induction l with
  | nil => intro c hc; simp at hc
  | cons a l ih =>
    intro c hc
    rw [List.dropWhile_cons] at hc
    by_cases ha : isHyphen a = true
    · rw [if_pos ha] at hc
      exact List.mem_cons_of_mem _ (ih c hc)
    · rw [if_neg ha] at hc
      exact hc

theorem noDD_tail {a : Char} {l : List Char} (h : noDoubleHyphen (a :: l) = true) :
    noDoubleHyphen l = true := by
  cases l with
  | nil => rfl
  | cons b t =>
    unfold noDoubleHyphen at h
    simp only [Bool.and_eq_true] at h
    exact h.2

theorem noDD_cons_of_ne {a : Char} {l : List Char} (ha : ¬ charCode a = 45)
    (hl : noDoubleHyphen l = true) : noDoubleHyphen (a :: l) = true := by
  cases l with
  | nil => rfl
  | cons b t =>
    unfold noDoubleHyphen
    simp [ha, hl]

theorem noDD_cons_of_head {a : Char} {l : List Char} (hh : headNotHyphen l = true)
    (hl : noDoubleHyphen l = true) : noDoubleHyphen (a :: l) = true := by
  cases l with
  | nil => rfl
  | cons b t =>
    unfold noDoubleHyphen
    unfold headNotHyphen at hh
    simp only [Bool.not_eq_true'] at hh
    simp [hl]
    simp only [decide_eq_false_iff_not] at hh
    exact Or.inr hh

theorem headNotHyphen_collapse_true : ∀ l : List Char,
    headNotHyphen (collapseHyphens l true) = true := by
  intro l
  induction l with
  | nil => rfl
  | cons a l ih =>
    unfold collapseHyphens
    by_cases ha : charCode a = 45
    · rw [if_pos ha]
      exact ih
    · rw [if_neg ha]
      unfold headNotHyphen
      simp [ha]

theorem noDD_collapse : ∀ (l : List Char) (b : Bool),
    noDoubleHyphen (collapseHyphens l b) = true := by
  intro l
  induction l with
  | nil => intro b; rfl
  | cons a l ih =>
    intro b
    unfold collapseHyphens
    by_cases ha : charCode a = 45
    · rw [if_pos ha]
      cases b with
      | true => exact ih true
      | false =>
        exact noDD_cons_of_head (headNotHyphen_collapse_true l) (ih true)
    · rw [if_neg ha]
      exact noDD_cons_of_ne ha (ih false)

theorem headNotHyphen_dropWhile (l : List Char) :
    headNotHyphen (l.dropWhile isHyphen) = true := by
  induction l with
  | nil => rfl
  | cons a l ih =>
    rw [List.dropWhile_cons]
    by_cases ha : isHyphen a = true
    · rw [if_pos ha]
      exact ih
    · rw [if_neg ha]
      unfold headNotHyphen
      unfold isHyphen at ha
      simp only [Bool.not_eq_true] at ha ⊢
      simpa using ha

theorem noDD_dropWhile {l : List Char} (h : noDoubleHyphen l = true) :
    noDoubleHyphen (l.dropWhile isHyphen) = true := by
  induction l with
  | nil => rfl
  | cons a l ih =>
    rw [List.dropWhile_cons]
    by_cases ha : isHyphen a = true
    · rw [if_pos ha]
      exact ih (noDD_tail h)
    · rw [if_neg ha]
      exact h

theorem dropTrailing_head {l : List Char} {r : Char} {rs : List Char}
    (h : dropTrailingHyphens l = r :: rs) : ∃ t, l = r :: t := by
  cases l with
  | nil => simp [dropTrailingHyphens] at h
  | cons a l =>
    unfold dropTrailingHyphens at h
    cases hd : dropTrailingHyphens l with
    | nil =>
      rw [hd] at h
      by_cases ha : charCode a = 45
      · rw [if_pos ha] at h
        simp at h
      · rw [if_neg ha] at h
        simp at h
        exact ⟨l, by rw [h.1]⟩
    | cons x xs =>
      rw [hd] at h
      simp at h
      exact ⟨l, by rw [h.1]⟩

theorem lastNotHyphen_dropTrailing : ∀ l : List Char,
    lastNotHyphen (dropTrailingHyphens l) = true := by
  intro l
  induction l with
  | nil => rfl
  | cons a l ih =>
    unfold dropTrailingHyphens
    cases hd : dropTrailingHyphens l with
    | nil =>
      by_cases ha : charCode a = 45
      · rw [if_pos ha]
        rfl
      · rw [if_neg ha]
        unfold lastNotHyphen
        simp [ha]
    | cons r rs =>
      rw [hd] at ih
      show lastNotHyphen (a :: r :: rs) = true
      unfold lastNotHyphen
      exact ih

theorem headNotHyphen_dropTrailing {l : List Char} (h : headNotHyphen l = true) :
    headNotHyphen (dropTrailingHyphens l) = true := by
  cases l with
  | nil => rfl
  | cons a l =>
    unfold dropTrailingHyphens
    cases hd : dropTrailingHyphens l with
    | nil =>
      by_cases ha : charCode a = 45
      · rw [if_pos ha]
        rfl
      · rw [if_neg ha]
        exact h
    | cons r rs =>
      exact h

theorem noDD_dropTrailing {l : List Char} (h : noDoubleHyphen l = true) :
    noDoubleHyphen (dropTrailingHyphens l) = true := by
  induction l with
  | nil => rfl
  | cons a l ih =>
    unfold dropTrailingHyphens
    cases hd : dropTrailingHyphens l with
    | nil =>
      by_cases ha : charCode a = 45
      · rw [if_pos ha]
        rfl
      · rw [if_neg ha]
        rfl
    | cons r rs =>
      have hr := ih (noDD_tail h)
      rw [hd] at hr
      obtain ⟨t, ht⟩ := dropTrailing_head hd
      subst ht
      unfold noDoubleHyphen at h ⊢
      simp only [Bool.and_eq_true] at h ⊢
      exact ⟨h.1, hr⟩

theorem map_lowerChar_id {l : List Char} (h : ∀ c ∈ l, slugChar c = true) :
    l.map lowerChar = l := by
  induction l with
  | nil => rfl
  | cons a l ih =>
    rw [List.map_cons, slugChar_lowerChar (h a (List.mem_cons_self _ _)),
      ih (fun c hc => h c (List.mem_cons_of_mem _ hc))]

theorem filter_kept_id {l : List Char} (h : ∀ c ∈ l, isKeptChar c = true) :
    l.filter isKeptChar = l :=
  List.filter_eq_self.mpr h

theorem subSpaces_id {l : List Char} (h : ∀ c ∈ l, isSpaceChar c = false) :
    ∀ b, subSpaces l b = l := by
  induction l with
  | nil => intro b; rfl
  | cons a l ih =>
    intro b
    unfold subSpaces
    rw [if_neg (by simp [h a (List.mem_cons_self _ _)])]
    rw [ih (fun c hc => h c (List.mem_cons_of_mem _ hc)) false]

theorem collapse_id {l : List Char} (hd : noDoubleHyphen l = true) :
    ∀ b : Bool, (b = true → headNotHyphen l = true) → collapseHyphens l b = l := by
  induction l with
  | nil => intro b _; rfl
  | cons a l ih =>
    intro b hb
    unfold collapseHyphens
    by_cases ha : charCode a = 45
    · rw [if_pos ha]
      cases b with
      | true =>
        exfalso
        have := hb rfl
        unfold headNotHyphen at this
        simp [ha] at this
      | false =>
        have hhl : headNotHyphen l = true := by
          cases l with
          | nil => rfl
          | cons b2 t =>
            unfold noDoubleHyphen at hd
            simp only [Bool.and_eq_true] at hd
            have h1 := hd.1
            simp only [Bool.not_eq_true', Bool.and_eq_false_iff,
              decide_eq_false_iff_not] at h1
            unfold headNotHyphen
            simp only [Bool.not_eq_true', decide_eq_false_iff_not]
            rcases h1 with h1 | h1
            · exact absurd ha h1
            · exact h1
        have ha2 : a = '-' := charCode_inj ha
        rw [ih (noDD_tail hd) true (fun _ => hhl)]
        rw [ha2]
        rfl
    · rw [if_neg ha]
      rw [ih (noDD_tail hd) false (fun h => nomatch h)]

theorem dropWhile_isHyphen_id {l : List Char} (h : headNotHyphen l = true) :
    l.dropWhile isHyphen = l := by
  cases l with
  | nil => rfl
  | cons a l =>
    rw [List.dropWhile_cons]
    unfold headNotHyphen at h
    simp only [Bool.not_eq_true', decide_eq_false_iff_not] at h
    rw [if_neg (by simp [isHyphen, h])]

theorem dropTrailing_id {l : List Char} (h : lastNotHyphen l = true) :
    dropTrailingHyphens l = l := by
  induction l with
  | nil => rfl
  | cons a l ih =>
    cases l with
    | nil =>
      unfold lastNotHyphen at h
      simp only [Bool.not_eq_true', decide_eq_false_iff_not] at h
      unfold dropTrailingHyphens
      simp [h]
      rfl
    | cons b t =>
      have hlast : lastNotHyphen (b :: t) = true := h
      have ihr := ih hlast
      unfold dropTrailingHyphens
      rw [ihr]

theorem create_slugL_invariants (l : List Char) :
    (∀ c ∈ create_slugL l, slugChar c = true) ∧
    noDoubleHyphen (create_slugL l) = true ∧
    headNotHyphen (create_slugL l) = true ∧
    lastNotHyphen (create_slugL l) = true := by
  unfold create_slugL stripHyphens
  refine ⟨?_, ?_, ?_, ?_⟩
  · intro c hc
    have hc2 := mem_dropTrailingHyphens c hc
    have hc3 := mem_dropWhile_isHyphen c hc2
    rcases mem_collapseHyphens false c hc3 with hc4 | h45
    · rcases mem_subSpaces (fun d hd => (List.mem_filter.mp hd).2) false c hc4 with
        ⟨h1, h2⟩ | h45
      · exact slugChar_of_kept (List.mem_filter.mp h1).2 h2
      · simp [slugChar, h45]
    · simp [slugChar, h45]
  · exact noDD_dropTrailing (noDD_dropWhile (noDD_collapse _ false))
  · exact headNotHyphen_dropTrailing (headNotHyphen_dropWhile _)
  · exact lastNotHyphen_dropTrailing _

theorem create_slugL_idem (l : List Char) :
    create_slugL (create_slugL l) = create_slugL l := by
  obtain ⟨hA, hDD, hHead, hLast⟩ := create_slugL_invariants l
  conv_lhs => rw [create_slugL]
  rw [map_lowerChar_id hA]
  rw [filter_kept_id (fun c hc => slugChar_kept (hA c hc))]
  rw [subSpaces_id (fun c hc => slugChar_not_space (hA c hc)) false]
  rw [collapse_id hDD false (fun h => nomatch h)]
  unfold stripHyphens
  rw [dropWhile_isHyphen_id hHead]
  rw [dropTrailing_id hLast]

/-- Claim C5: `create_slug("Hello, World! 2024")` is `"hello-world-2024"`,
and `create_slug` is idempotent: re-applying it to any already-slugified
title leaves it unchanged (the output contains only lowercase letters,
digits and single hyphens with no boundary hyphens, and every stage of the
pipeline is the identity on such strings). -/
theorem create_slug_spec :
    (∀ t : String, create_slug (create_slug t) = create_slug t) ∧
    create_slug "Hello, World! 2024" = "hello-world-2024" := by
  constructor
  · intro t
    unfold create_slug
    exact congrArg String.mk (create_slugL_idem t.data)
  · decide

/-- Claim C6: `_is_similar` returns `True` whenever one stopword-filtered
token set contains the other (both non-empty), regardless of the Jaccard
ratio; otherwise (both non-empty, no containment) it returns `True` exactly
when the Jaccard similarity reaches the threshold; and the candidate
rejection of `generate_multiple_articles` applies it at threshold 0.4
against trending keywords and batch topics and 0.35 against existing
article titles. -/
theorem is_similar_spec :
    (∀ (a b : String) (th : ℚ), extractWords a ≠ ∅ → extractWords b ≠ ∅ →
      (extractWords a ⊆ extractWords b ∨ extractWords b ⊆ extractWords a) →
      isSimilarPy a b th = true) ∧
    (∀ (a b : String) (th : ℚ), extractWords a ≠ ∅ → extractWords b ≠ ∅ →
      ¬(extractWords a ⊆ extractWords b ∨ extractWords b ⊆ extractWords a) →
      (isSimilarPy a b th = true ↔ th ≤ jaccardSim a b)) ∧
    (∀ (topic : String) (ek et ut : List String),
      topicIsDuplicate topic ek et ut =
        (ek.any (fun kw => isSimilarPy topic kw (2/5)) ||
         et.any (fun t => isSimilarPy topic t (7/20)) ||
         ut.any (fun u => isSimilarPy topic u (2/5)))) := by
  refine ⟨?_, ?_, ?_⟩
  · intro a b th h1 h2 hsub
    unfold isSimilarPy
    rw [if_neg (by tauto), if_pos hsub]
  · intro a b th h1 h2 hnsub
    unfold isSimilarPy
    rw [if_neg (by tauto), if_neg hnsub]
    exact decide_eq_true_iff
  · intro topic ek et ut
    unfold topicIsDuplicate
    by_cases hk : ek.any (fun kw => isSimilarPy topic kw (2/5)) = true
    · rw [if_pos hk, hk]
      rfl
    · rw [if_neg hk]
      rw [Bool.not_eq_true] at hk
      rw [hk]
      by_cases ht : et.any (fun t => isSimilarPy topic t (7/20)) = true
      · rw [if_pos ht, ht]
        rfl
      · rw [if_neg ht]
        rw [Bool.not_eq_true] at ht
        rw [ht]
        rfl

/-- Claim C6 witness: the word set of `"machine learning"` is contained in
that of `"machine learning basics"`, so the pair is similar even at the
high threshold `0.9`. -/
theorem is_similar_spec_witness :
    extractWords "machine learning basics" ≠ ∅ ∧
    isSimilarPy "machine learning basics" "machine learning" (9/10) = true :=
  ⟨by decide, is_similar_spec.1 _ _ _ (by decide) (by decide) (by decide)⟩

/-- Claim C7: the LLM semantic-duplicate check fails open — when both
provider calls raise, it returns `False`; and it returns `True` only when
one of the provider replies, stripped and upper-cased, equals `"YES"`. -/
theorem semantic_duplicate_fail_open :
    (∀ e1 e2 : String, isSemanticDuplicatePy (.error e1) (.error e2) = false) ∧
    (∀ api cli : Except String String, isSemanticDuplicatePy api cli = true →
      ∃ r, (api = .ok r ∨ cli = .ok r) ∧
        (⟨(pyStrip r.data).map upperChar⟩ : String) = "YES") := by
  constructor
  · intro e1 e2
    rfl
  · intro api cli h
    cases api with
    | ok r =>
      refine ⟨r, Or.inl rfl, ?_⟩
      unfold isSemanticDuplicatePy at h
      exact eq_of_beq h
    | error e =>
      cases cli with
      | ok r =>
        refine ⟨r, Or.inr rfl, ?_⟩
        unfold isSemanticDuplicatePy at h
        exact eq_of_beq h
      | error e2 =>
        exact absurd h (by simp [isSemanticDuplicatePy])

/-- Claim C7 witness: two raising providers yield `False`; the reply
`" yes "` from the first provider is a duplicate verdict whose stripped,
upper-cased form is `"YES"`. -/
theorem semantic_duplicate_fail_open_witness :
    isSemanticDuplicatePy (.error "timeout") (.error "parse error") = false ∧
    ∃ r, ((Except.ok " yes " : Except String String) = .ok r ∨
        (Except.error "x" : Except String String) = .ok r) ∧
      (⟨(pyStrip r.data).map upperChar⟩ : String) = "YES" :=
  ⟨semantic_duplicate_fail_open.1 "timeout" "parse error",
   semantic_duplicate_fail_open.2 (.ok " yes ") (.error "x") (by decide)⟩

/-- Claim C8: `save_article_to_database` enforces slug uniqueness by a
check before insert — whenever the slug derived from the article's title
already exists (`check_slug_exists` returns `True`), it returns `False`
with the database state unchanged, so `create_article` is never reached on
that path. -/
theorem save_article_slug_exists_noop :
    ∀ (enabled : Bool) (db : DBState) (article : ArticleDict),
      check_slug_exists db (create_slug article.title) = true →
      save_article_to_database enabled db article = (false, db) := by
  intro enabled db article h
  unfold save_article_to_database
  cases enabled with
  | false => rfl
  | true =>
    dsimp only
    rw [if_pos h]
    rfl

/-- Claim C8 witness: with a row already stored under `"test-article"`,
saving an article titled `"Test Article!"` (same derived slug) returns
`False` and leaves the table unchanged. -/
theorem save_article_slug_exists_noop_witness :
    check_slug_exists ⟨[("test-article", "Test")]⟩ (create_slug "Test Article!") = true ∧
    save_article_to_database true ⟨[("test-article", "Test")]⟩ ⟨"Test Article!"⟩ =
      (false, ⟨[("test-article", "Test")]⟩) :=
  ⟨by decide, save_article_slug_exists_noop true _ _ (by decide)⟩

theorem gmaLoop_invariant (gen : String → Option GenArticle)
    (semDup : String → List String → Bool) (count : Nat) (ek : List String) :
    ∀ (tds : List TopicData) (arts : List GenArticle) (used et : List String),
      arts.length ≤ count → (∀ a ∈ arts, 500 ≤ a.word_count) →
      (gmaLoop gen semDup count ek tds arts used et).length ≤ count ∧
      ∀ a ∈ gmaLoop gen semDup count ek tds arts used et, 500 ≤ a.word_count := by
  intro tds
  induction tds with
  | nil =>
    intro arts used et h1 h2
    exact ⟨h1, h2⟩
  | cons td rest ih =>
    intro arts used et h1 h2
    unfold gmaLoop
    by_cases hc : count ≤ arts.length
    · rw [if_pos hc]
      exact ⟨h1, h2⟩
    · rw [if_neg hc]
      by_cases hu : used.contains (toLowerS (topicOf td)) = true
      · rw [if_pos hu]
        exact ih arts used et h1 h2
      · rw [if_neg hu]
        by_cases hdup : topicIsDuplicate (toLowerS (topicOf td)) ek et used = true
        · rw [if_pos hdup]
          exact ih arts used et h1 h2
        · rw [if_neg hdup]
          cases hg : gen (topicOf td) with
          | none => exact ih arts used et h1 h2
          | some article =>
            dsimp only
            by_cases h500 : 500 ≤ article.word_count
            · rw [if_pos h500]
              by_cases hsem : (!et.isEmpty && semDup article.title et) = true
              · rw [if_pos hsem]
                exact ih arts used et h1 h2
              · rw [if_neg hsem]
                apply ih
                · rw [List.length_append]
                  simp only [List.length_singleton]
                  omega
                · intro a ha
                  rcases List.mem_append.mp ha with ha | ha
                  · exact h2 a ha
                  · rw [List.mem_singleton] at ha
                    subst ha
                    exact h500
            · rw [if_neg h500]
              exact ih arts used et h1 h2

/-- Claim C10: `generate_multiple_articles` returns at most
`articles_count` articles, and every returned article has
`word_count ≥ 500` — shorter generated articles are silently dropped,
whatever the generator and semantic-duplicate oracles do. -/
theorem generate_articles_bounds :
    ∀ (gen : String → Option GenArticle) (semDup : String → List String → Bool)
      (topics : List TopicData) (articles_count : Nat)
      (existing_titles existing_keywords : List String),
      (generate_multiple_articles gen semDup topics articles_count
        existing_titles existing_keywords).length ≤ articles_count ∧
      ∀ a ∈ generate_multiple_articles gen semDup topics articles_count
        existing_titles existing_keywords, 500 ≤ a.word_count := by
  intro gen semDup topics articles_count existing_titles existing_keywords
  exact gmaLoop_invariant gen semDup articles_count existing_keywords topics
    [] [] existing_titles (by simp) (by simp)

/-- Claim C10 witness: a generator that always produces a 900-word article
on a single topic yields one article (≤ 2 requested) whose word count is at
least 500. -/
theorem generate_articles_bounds_witness :
    (generate_multiple_articles
        (fun _ => some ⟨"Quantum Computing Advances Explained", 900⟩)
        (fun _ _ => false) [⟨some "Quantum Computing Advances", none⟩] 2
        [] []).length ≤ 2 ∧
    500 ≤ (GenArticle.mk "Quantum Computing Advances Explained" 900).word_count :=
  ⟨(generate_articles_bounds _ _ _ _ _ _).1,
   (generate_articles_bounds
      (fun _ => some ⟨"Quantum Computing Advances Explained", 900⟩)
      (fun _ _ => false) [⟨some "Quantum Computing Advances", none⟩] 2
      [] []).2 (GenArticle.mk "Quantum Computing Advances Explained" 900)
      (by decide)⟩
